import Mathlib

/-!
Verification of the UR3 kinematics core (forward kinematics, angle
normalization, joint limits, and the multi-start damped least-squares
inverse-kinematics solver).  The definitions below are a shallow embedding
of the two source modules `urdf_forward_kinematics.py` and
`inverse_kinematics.py`; machine floating-point numbers are modelled as
real numbers.
-/

open Real Matrix

namespace UR3

abbrev Mat3 := Matrix (Fin 3) (Fin 3) ℝ

abbrev Mat4 := Matrix (Fin 4) (Fin 4) ℝ

abbrev Mat6 := Matrix (Fin 6) (Fin 6) ℝ

abbrev JointVec := Fin 6 → ℝ

/-- URDF constant, shoulder height (constructor attribute `d1`). -/
def d1 : ℝ := 0.1519

/-- Negative of the upper-arm length (constructor attribute `a2`). -/
def a2 : ℝ := -0.24365

/-- Negative of the forearm length (constructor attribute `a3`). -/
def a3 : ℝ := -0.21325

/-- Wrist-1 offset (constructor attribute `d4`). -/
def d4 : ℝ := 0.11235

/-- Wrist-2 offset (constructor attribute `d5`). -/
def d5 : ℝ := 0.08535

/-- Wrist-3 offset (constructor attribute `d6`). -/
def d6 : ℝ := 0.0819

/-- Y offset for the shoulder-lift joint (constructor attribute). -/
def shoulder_offset : ℝ := 0.1198

/-- Y offset for the elbow joint (constructor attribute). -/
def elbow_offset : ℝ := -0.0925

/-- Computed length `upper_arm_length = -a2`. -/
def upper_arm_length : ℝ := -a2

/-- Computed length `forearm_length = -a3`. -/
def forearm_length : ℝ := -a3

/-- Computed length `wrist_1_length = d4 - elbow_offset - shoulder_offset`. -/
def wrist_1_length : ℝ := d4 - elbow_offset - shoulder_offset

/-- Computed length `wrist_2_length = d5`. -/
def wrist_2_length : ℝ := d5

/-- Computed length `wrist_3_length = d6`. -/
def wrist_3_length : ℝ := d6

/-- Rotation around the X axis (source method `_rotx`). -/
noncomputable def rotx (angle : ℝ) : Mat4 :=
  !![1, 0, 0, 0;
     0, cos angle, -sin angle, 0;
     0, sin angle, cos angle, 0;
     0, 0, 0, 1]

/-- Rotation around the Y axis (source method `_roty`). -/
noncomputable def roty (angle : ℝ) : Mat4 :=
  !![cos angle, 0, sin angle, 0;
     0, 1, 0, 0;
     -sin angle, 0, cos angle, 0;
     0, 0, 0, 1]

/-- Rotation around the Z axis (source method `_rotz`). -/
noncomputable def rotz (angle : ℝ) : Mat4 :=
  !![cos angle, -sin angle, 0, 0;
     sin angle, cos angle, 0, 0;
     0, 0, 1, 0;
     0, 0, 0, 1]

/-- The 4x4 transform from an xyz translation and rpy Euler angles (source method
`_create_transform`: start from the identity, set the translation column to
xyz and the rotation block to the top-left 3x3 block of `Rz * Ry * Rx`). -/
noncomputable def create_transform (xyz rpy : Fin 3 → ℝ) : Mat4 :=
  let R := rotz (rpy 2) * roty (rpy 1) * rotx (rpy 0)
  !![R 0 0, R 0 1, R 0 2, xyz 0;
     R 1 0, R 1 1, R 1 2, xyz 1;
     R 2 0, R 2 1, R 2 2, xyz 2;
     0, 0, 0, 1]

/-- Rotation-axis selector of a joint.  The source passes one-character
strings; the method `joint_transform` tests for the z string, then the y
string, and otherwise falls back to the x axis. -/
inductive RotAxis
  | x
  | y
  | z

/-- Joint transform `fixedOrigin(xyz, rpy) * rotation(axis, q)` (source method
`joint_transform`). -/
noncomputable def joint_transform (xyz rpy : Fin 3 → ℝ) (q : ℝ) (axis : RotAxis) : Mat4 :=
  let T_origin := create_transform xyz rpy
  let T_joint :=
    match axis with
    | RotAxis.z => rotz q
    | RotAxis.y => roty q
    | RotAxis.x => rotx q
  T_origin * T_joint

/-- The dictionary of link transforms returned by `forward_kinematics`,
one field per link name. -/
structure LinkPoseSet where
  base : Mat4
  shoulder : Mat4
  upper_arm : Mat4
  forearm : Mat4
  wrist_1 : Mat4
  wrist_2 : Mat4
  wrist_3 : Mat4

/-- The `UR3_URDF_ForwardKinematics` class.  All geometry attributes set in
`__init__` are fixed numeric constants and are modelled as the top-level
constants above; the only piece of instance state read by any method is the
`joint_limits` attribute (read exclusively by `check_joint_limits`), so it is
the one field of the structure. -/
structure UR3_URDF_ForwardKinematics where
  joint_limits : Fin 6 → ℝ × ℝ

/-- The joint-limit table set in `__init__`: ±360° for every joint. -/
noncomputable def default_joint_limits : Fin 6 → ℝ × ℝ := fun _ => (-(2 * π), 2 * π)

/-- A `UR3_URDF_ForwardKinematics()` instance as built by `__init__`. -/
noncomputable def ur3 : UR3_URDF_ForwardKinematics := ⟨default_joint_limits⟩

/-- Source method `forward_kinematics`: cumulative link poses as products of
the six URDF joint transforms. -/
noncomputable def UR3_URDF_ForwardKinematics.forward_kinematics
    (_self : UR3_URDF_ForwardKinematics) (q : JointVec) : LinkPoseSet :=
  let T_base : Mat4 := 1
  let T1 := joint_transform ![0, 0, d1] ![0, 0, 0] (q 0) RotAxis.z
  let T_shoulder := T_base * T1
  let T2 := joint_transform ![0, shoulder_offset, 0] ![0, π / 2, 0] (q 1) RotAxis.y
  let T_upper_arm := T_shoulder * T2
  let T3 := joint_transform ![0, elbow_offset, upper_arm_length] ![0, 0, 0] (q 2) RotAxis.y
  let T_forearm := T_upper_arm * T3
  let T4 := joint_transform ![0, 0, forearm_length] ![0, π / 2, 0] (q 3) RotAxis.y
  let T_wrist_1 := T_forearm * T4
  let T5 := joint_transform ![0, wrist_1_length, 0] ![0, 0, 0] (q 4) RotAxis.z
  let T_wrist_2 := T_wrist_1 * T5
  let T6 := joint_transform ![0, 0, wrist_2_length] ![0, 0, 0] (q 5) RotAxis.y
  let T_wrist_3 := T_wrist_2 * T6
  { base := T_base
    shoulder := T_shoulder
    upper_arm := T_upper_arm
    forearm := T_forearm
    wrist_1 := T_wrist_1
    wrist_2 := T_wrist_2
    wrist_3 := T_wrist_3 }

/-- Source method `get_end_effector_transform`: the wrist_3 entry of the
forward-kinematics result. -/
noncomputable def UR3_URDF_ForwardKinematics.get_end_effector_transform
    (self : UR3_URDF_ForwardKinematics) (q : JointVec) : Mat4 :=
  (self.forward_kinematics q).wrist_3

/-- Source method `check_joint_limits`: the loop returns False as soon as one
angle is strictly below its lower bound or strictly above its upper bound,
and True otherwise. -/
noncomputable def UR3_URDF_ForwardKinematics.check_joint_limits
    (self : UR3_URDF_ForwardKinematics) (q : JointVec) : Bool :=
  (List.finRange 6).all fun i =>
    !(decide (q i < (self.joint_limits i).1) || decide ((self.joint_limits i).2 < q i))

/-- The first while loop of `normalize_joint_angles`: subtract 2π while the
angle exceeds π. -/
noncomputable def reduceDown (x : ℝ) : ℝ :=
  if h : x > π then reduceDown (x - 2 * π) else x
termination_by Nat.ceil ((x - π) / (2 * π))
decreasing_by
  have hpi : (0 : ℝ) < 2 * π := by positivity
  have key : (x - 2 * π - π) / (2 * π) = (x - π) / (2 * π) - 1 := by
    field_simp
    ring
  have hy : 0 < (x - π) / (2 * π) := div_pos (by linarith) hpi
  have h1 : 1 ≤ Nat.ceil ((x - π) / (2 * π)) := Nat.one_le_ceil_iff.mpr hy
  have h2 : Nat.ceil ((x - π) / (2 * π) - 1) ≤ Nat.ceil ((x - π) / (2 * π)) - 1 := by
    rw [Nat.ceil_le]
    push_cast [Nat.cast_sub h1]
    have := Nat.le_ceil ((x - π) / (2 * π))
    linarith
  rw [key]
  exact lt_of_le_of_lt h2 (Nat.sub_lt (lt_of_lt_of_le one_pos h1) one_pos)

/-- The second while loop of `normalize_joint_angles`: add 2π while the angle
is below -π. -/
noncomputable def reduceUp (x : ℝ) : ℝ :=
  if h : x < -π then reduceUp (x + 2 * π) else x
termination_by Nat.ceil ((-π - x) / (2 * π))
decreasing_by
  have hpi : (0 : ℝ) < 2 * π := by positivity
  have key : (-π - (x + 2 * π)) / (2 * π) = (-π - x) / (2 * π) - 1 := by
    field_simp
    ring
  have hy : 0 < (-π - x) / (2 * π) := div_pos (by linarith) hpi
  have h1 : 1 ≤ Nat.ceil ((-π - x) / (2 * π)) := Nat.one_le_ceil_iff.mpr hy
  have h2 : Nat.ceil ((-π - x) / (2 * π) - 1) ≤ Nat.ceil ((-π - x) / (2 * π)) - 1 := by
    rw [Nat.ceil_le]
    push_cast [Nat.cast_sub h1]
    have := Nat.le_ceil ((-π - x) / (2 * π))
    linarith
  rw [key]
  exact lt_of_le_of_lt h2 (Nat.sub_lt (lt_of_lt_of_le one_pos h1) one_pos)

/-- One element of `normalize_joint_angles`: the source runs the subtracting
while loop first, then the adding while loop. -/
noncomputable def normalizeAngle (x : ℝ) : ℝ :=
  reduceUp (reduceDown x)

/-- Source method `normalize_joint_angles`, applied elementwise to the six
joint angles. -/
noncomputable def UR3_URDF_ForwardKinematics.normalize_joint_angles
    (_self : UR3_URDF_ForwardKinematics) (q : JointVec) : JointVec :=
  fun i => normalizeAngle (q i)

/-- Convergence epsilon of the solver (attribute `epsilon`, fixed in
`__init__` of `UR3_InverseKinematics`). -/
def epsilon : ℝ := 1e-6

/-- Iteration cap of the solver (attribute `max_iter`, fixed in `__init__`). -/
def max_iter : ℕ := 200

/-- Positional tolerance of the solver (attribute `tol`, fixed in `__init__`). -/
def tol : ℝ := 1e-6

/-- Fixed damping factor of the damped least-squares step. -/
def damping : ℝ := 0.01

/-- Source expression `np.clip(x, lo, hi)`. -/
noncomputable def clip (x lo hi : ℝ) : ℝ := max lo (min x hi)

/-- Translation column `T[:3, 3]` of a homogeneous transform. -/
def transl (T : Mat4) : Fin 3 → ℝ := fun i => T i.castSucc 3

/-- Rotation block `T[:3, :3]` of a homogeneous transform. -/
def rotOf (T : Mat4) : Mat3 := Matrix.of fun i j => T i.castSucc j.castSucc

/-- Euclidean vector norm `np.linalg.norm`. -/
noncomputable def vnorm {n : ℕ} (v : Fin n → ℝ) : ℝ := Real.sqrt (∑ i, v i ^ 2)

/-- Frobenius matrix norm of a 3x3 matrix. -/
noncomputable def froNorm (M : Mat3) : ℝ := Real.sqrt (∑ i, ∑ j, M i j ^ 2)

/-- Rotation angle extracted in `_solve_single` and `_numerical_jacobian`:
`arccos(clip((trace - 1) / 2, -1, 1))`. -/
noncomputable def rotationAngle (R : Mat3) : ℝ :=
  arccos (clip ((Matrix.trace R - 1) / 2) (-1) 1)

/-- Axis-angle orientation error `dw` of `_solve_single`: the zero vector when
the extracted angle is below `epsilon`, otherwise
`angle / (2 sin angle) * [R21 - R12, R02 - R20, R10 - R01]`. -/
noncomputable def orientation_error (R_err : Mat3) : Fin 3 → ℝ :=
  if rotationAngle R_err < epsilon then 0
  else (rotationAngle R_err / (2 * sin (rotationAngle R_err))) •
    ![R_err 2 1 - R_err 1 2, R_err 0 2 - R_err 2 0, R_err 1 0 - R_err 0 1]

/-- Angular rows of `_numerical_jacobian`: the zero vector when the
incremental rotation angle is below 1e-10, otherwise the axis-angle vector
scaled by `angle / (2 sin(angle) delta)`. -/
noncomputable def jacobian_angular (dR : Mat3) (delta : ℝ) : Fin 3 → ℝ :=
  if rotationAngle dR < 1e-10 then 0
  else (rotationAngle dR / (2 * sin (rotationAngle dR) * delta)) •
    ![dR 2 1 - dR 1 2, dR 0 2 - dR 2 0, dR 1 0 - dR 0 1]

/-- The matrix `J J^T + damping^2 I` passed to `np.linalg.solve` by the damped
least-squares step. -/
noncomputable def damped_matrix (J : Mat6) : Mat6 :=
  J * Jᵀ + damping ^ 2 • (1 : Mat6)

/-- The `UR3_InverseKinematics` class: `__init__` stores a fresh
`UR3_URDF_ForwardKinematics()` in `self.fk`; its `epsilon`, `max_iter` and
`tol` attributes are the fixed constants defined above. -/
structure UR3_InverseKinematics where
  fk : UR3_URDF_ForwardKinematics

/-- A `UR3_InverseKinematics()` instance as built by `__init__`. -/
noncomputable def ik_solver : UR3_InverseKinematics := ⟨ur3⟩

/-- Norm of the position error `p_desired - p_current` at an iterate. -/
noncomputable def position_error (fk : UR3_URDF_ForwardKinematics)
    (Td : Mat4) (q : JointVec) : ℝ :=
  vnorm fun i => transl Td i - transl (fk.get_end_effector_transform q) i

/-- Orientation error vector `dw` at an iterate, extracted from
`R_desired * R_current^T`. -/
noncomputable def rotation_error_vec (fk : UR3_URDF_ForwardKinematics)
    (Td : Mat4) (q : JointVec) : Fin 3 → ℝ :=
  orientation_error (rotOf Td * (rotOf (fk.get_end_effector_transform q))ᵀ)

/-- Norm of the orientation error at an iterate. -/
noncomputable def orientation_error_norm (fk : UR3_URDF_ForwardKinematics)
    (Td : Mat4) (q : JointVec) : ℝ :=
  vnorm (rotation_error_vec fk Td q)

/-- The stacked 6-vector error `[dp; dw]` of `_solve_single`. -/
noncomputable def ik_error (fk : UR3_URDF_ForwardKinematics)
    (Td : Mat4) (q : JointVec) : JointVec :=
  Fin.append (fun i => transl Td i - transl (fk.get_end_effector_transform q) i)
    (rotation_error_vec fk Td q)

/-- Source method `_numerical_jacobian` with perturbation `delta`: the linear
rows are finite differences of the translation, the angular rows the
axis-angle of the incremental rotation divided by `delta`. -/
noncomputable def UR3_InverseKinematics.numerical_jacobian
    (self : UR3_InverseKinematics) (q : JointVec) (delta : ℝ) : Mat6 :=
  Matrix.of fun r i =>
    let T0 := self.fk.get_end_effector_transform q
    let q_plus := Function.update q i (q i + delta)
    let T_plus := self.fk.get_end_effector_transform q_plus
    if h : (r : ℕ) < 3 then
      (transl T_plus ⟨r, h⟩ - transl T0 ⟨r, h⟩) / delta
    else
      jacobian_angular (rotOf T_plus * (rotOf T0)ᵀ) delta
        ⟨(r : ℕ) - 3, by have := r.isLt; omega⟩

/-- Source method `_verify` with its default tolerances (position error below
1e-4, Frobenius norm of the rotation difference below 5e-3); `_solve_single`
always calls it with the defaults. -/
noncomputable def UR3_InverseKinematics.verify
    (self : UR3_InverseKinematics) (q : JointVec) (T_desired : Mat4) : Bool :=
  let T_actual := self.fk.get_end_effector_transform q
  decide (vnorm (fun i => transl T_actual i - transl T_desired i) < 1e-4 ∧
    froNorm (rotOf T_actual - rotOf T_desired) < 5e-3)

/-- One damped least-squares update
`dq = J^T (J J^T + damping^2 I)^{-1} error`; `np.linalg.solve` on the
(always nonsingular) damped matrix is modelled as its inverse applied to the
error vector. -/
noncomputable def UR3_InverseKinematics.dls_update
    (self : UR3_InverseKinematics) (Td : Mat4) (q : JointVec) : JointVec :=
  let J := self.numerical_jacobian q 1e-6
  Jᵀ *ᵥ ((damped_matrix J)⁻¹ *ᵥ ik_error self.fk Td q)

/-- The iteration of `_solve_single`, with fuel counting the remaining loop
passes: check convergence at the current iterate; on convergence return the
iterate when `_verify` accepts it and None otherwise; otherwise take one
damped least-squares step and continue. -/
noncomputable def UR3_InverseKinematics.solveLoop
    (self : UR3_InverseKinematics) (Td : Mat4) : ℕ → JointVec → Option JointVec
  | 0, _ => none
  | n + 1, q =>
    if position_error self.fk Td q < tol ∧
        orientation_error_norm self.fk Td q < tol * 5 then
      if self.verify q Td then some q else none
    else
      self.solveLoop Td n (q + self.dls_update Td q)

/-- Source method `_solve_single`: run the iteration for `max_iter` passes
from the seed; falling off the loop yields None. -/
noncomputable def UR3_InverseKinematics.solve_single
    (self : UR3_InverseKinematics) (Td : Mat4) (q_init : JointVec) : Option JointVec :=
  self.solveLoop Td max_iter q_init

/-- The constant 2^31, the upper-bit mask of the Mersenne Twister. -/
def mtUpperMask : ℕ := 2147483648

/-- The constant 2^32 - 1, the 32-bit word mask of the Mersenne Twister. -/
def mtMask : ℕ := 4294967295

/-- numpy legacy seeding of `RandomState(seed)` (randomkit `rk_seed`):
`mt[0] = seed` and `mt[i] = 1812433253 * (mt[i-1] xor (mt[i-1] >> 30)) + i`,
all truncated to 32 bits. -/
def mtInit (seed : ℕ) : List ℕ :=
  (List.range 623).foldl
    (fun mt i =>
      let prev := mt.getD i 0
      mt ++ [(1812433253 * (prev ^^^ (prev >>> 30)) + (i + 1)) &&& mtMask])
    [seed &&& mtMask]

/-- One Mersenne Twister state regeneration (the in-place loop of randomkit
`rk_random`). -/
def mtTwist (mt : List ℕ) : List ℕ :=
  (List.range 624).foldl
    (fun m i =>
      let y := ((m.getD i 0) &&& mtUpperMask) ||| ((m.getD ((i + 1) % 624) 0) &&& 2147483647)
      let v := (m.getD ((i + 397) % 624) 0) ^^^ (y >>> 1) ^^^
        (if y % 2 = 1 then 2567483615 else 0)
      m.set i v)
    mt

/-- Mersenne Twister output tempering. -/
def mtTemper (y0 : ℕ) : ℕ :=
  let y1 := y0 ^^^ (y0 >>> 11)
  let y2 := y1 ^^^ ((y1 <<< 7) &&& 2636928640)
  let y3 := y2 ^^^ ((y2 <<< 15) &&& 4022730752)
  y3 ^^^ (y3 >>> 18)

/-- The state block from which `np.random.RandomState(42)` serves its first
624 32-bit draws. -/
def mtState42 : List ℕ := mtTwist (mtInit 42)

/-- The k-th 32-bit draw of `np.random.RandomState(42)`, for k < 624. -/
def mtDraw (k : ℕ) : ℕ := mtTemper (mtState42.getD k 0)

/-- The k-th uniform double in [0, 1) (randomkit `rk_double`:
`(a * 2^26 + b) / 2^53` with `a = draw >> 5` and `b = draw >> 6` from two
consecutive 32-bit draws). -/
noncomputable def randomDouble (k : ℕ) : ℝ :=
  (((mtDraw (2 * k) >>> 5) * 67108864 + (mtDraw (2 * k + 1) >>> 6) : ℕ) : ℝ) /
    9007199254740992

/-- The j-th random seed of `_generate_seeds`:
`rng.uniform(-pi, pi, 6)`, i.e. `-pi + (pi - (-pi)) * u` componentwise. -/
noncomputable def randomSeed (j : ℕ) : JointVec :=
  fun i => -π + (π - (-π)) * randomDouble (6 * j + (i : ℕ))

/-- The eight structured starting configurations of `_generate_seeds`. -/
noncomputable def structured_configs : List JointVec :=
  [![0, -(π / 2), π / 2, -(π / 2), -(π / 2), 0],
   ![0, 0, 0, 0, 0, 0],
   ![0, -(π / 2), -(π / 2), 0, π / 2, 0],
   ![π, -(π / 2), π / 2, -(π / 2), π / 2, 0],
   ![0, -(π / 4), π / 4, -(π / 2), -(π / 2), 0],
   ![π, -(π / 2), -(π / 2), π / 2, π / 2, 0],
   ![0, -π, π / 2, 0, -(π / 2), π],
   ![-π, -(π / 2), π / 2, π / 2, -(π / 2), 0]]

/-- Source method `_generate_seeds`: the eight structured configurations
followed by 24 seeds drawn from the fixed-seed generator. -/
noncomputable def UR3_InverseKinematics.generate_seeds
    (_self : UR3_InverseKinematics) : List JointVec :=
  structured_configs ++ (List.range 24).map randomSeed

/-- Loop body of `solve_ik` for one seed: a converged and verified result is
normalized and appended, unless every one of its joints is within 0.05 rad of
a previously accepted solution. -/
noncomputable def UR3_InverseKinematics.dedup_step
    (self : UR3_InverseKinematics) (Td : Mat4)
    (solutions : List JointVec) (seed : JointVec) : List JointVec :=
  match self.solve_single Td seed with
  | none => solutions
  | some result =>
    let r := self.fk.normalize_joint_angles result
    if solutions.any (fun existing =>
        decide (∀ i, |r i - self.fk.normalize_joint_angles existing i| < 0.05)) then
      solutions
    else
      solutions ++ [r]

/-- Source method `solve_ik`: fold the per-seed solve and deduplication over
the seed battery, starting from the empty solution list. -/
noncomputable def UR3_InverseKinematics.solve_ik
    (self : UR3_InverseKinematics) (T_desired : Mat4) : List JointVec :=
  (self.generate_seeds).foldl (self.dedup_step T_desired) []

/-- The ordered stream of normalized per-seed results, before deduplication:
one entry per seed whose local solve succeeded, in seed order. -/
noncomputable def ikCandidates (self : UR3_InverseKinematics) (Td : Mat4) : List JointVec :=
  (self.generate_seeds).filterMap fun s =>
    (self.solve_single Td s).map (self.fk.normalize_joint_angles)

/-- Two joint vectors are distinct solutions when some joint differs by at
least the 0.05 rad dedup threshold. -/
def notClose (a b : JointVec) : Prop := ¬ ∀ i, |a i - b i| < 0.05

/-- Claim C1: for every 6-tuple of real joint angles, `forward_kinematics`
builds each joint local transform as `fixedOrigin(xyz, rpy)` composed with a
right-handed rotation about that joint axis by the supplied angle, the
cumulative pose of link i equals the cumulative pose of link i-1 times the
local transform of joint i, link 0 (base) is the identity, and the axes and
offsets are: shoulder-pan about Z offset by the shoulder height d1,
shoulder-lift about Y with the shoulder Y-offset and a fixed origin pitch of
π/2, elbow about Y with the elbow Y-offset and the upper-arm length along Z,
wrist-1 about Y with the forearm length and a fixed origin pitch of π/2,
wrist-2 about Z with the derived wrist-1 length, wrist-3 about Y with the
wrist-2 length. -/
theorem c1_fk_transform_chain (self : UR3_URDF_ForwardKinematics) (q : JointVec) :
    (self.forward_kinematics q).base = 1 ∧
    (self.forward_kinematics q).shoulder =
      (self.forward_kinematics q).base *
        (create_transform ![0, 0, d1] ![0, 0, 0] * rotz (q 0)) ∧
    (self.forward_kinematics q).upper_arm =
      (self.forward_kinematics q).shoulder *
        (create_transform ![0, shoulder_offset, 0] ![0, π / 2, 0] * roty (q 1)) ∧
    (self.forward_kinematics q).forearm =
      (self.forward_kinematics q).upper_arm *
        (create_transform ![0, elbow_offset, upper_arm_length] ![0, 0, 0] * roty (q 2)) ∧
    (self.forward_kinematics q).wrist_1 =
      (self.forward_kinematics q).forearm *
        (create_transform ![0, 0, forearm_length] ![0, π / 2, 0] * roty (q 3)) ∧
    (self.forward_kinematics q).wrist_2 =
      (self.forward_kinematics q).wrist_1 *
        (create_transform ![0, wrist_1_length, 0] ![0, 0, 0] * rotz (q 4)) ∧
    (self.forward_kinematics q).wrist_3 =
      (self.forward_kinematics q).wrist_2 *
        (create_transform ![0, 0, wrist_2_length] ![0, 0, 0] * roty (q 5)) :=
  ⟨rfl, rfl, rfl, rfl, rfl, rfl, rfl⟩

theorem reduceDown_eq (x : ℝ) :
    reduceDown x = if x > π then reduceDown (x - 2 * π) else x := by
  rw [reduceDown]
  split <;> rfl

theorem reduceUp_eq (x : ℝ) :
    reduceUp x = if x < -π then reduceUp (x + 2 * π) else x := by
  rw [reduceUp]
  split <;> rfl

theorem reduceDown_le (x : ℝ) : reduceDown x ≤ π := by
  induction x using reduceDown.induct with
  | case1 x h ih =>
    rw [reduceDown_eq, if_pos h]
    exact ih
  | case2 x h =>
    rw [reduceDown_eq, if_neg h]
    exact le_of_not_lt h

theorem reduceDown_shift (x : ℝ) : ∃ k : ℤ, reduceDown x = x + 2 * π * k := by
  induction x using reduceDown.induct with
  | case1 x h ih =>
    obtain ⟨k, hk⟩ := ih
    refine ⟨k - 1, ?_⟩
    rw [reduceDown_eq, if_pos h, hk]
    push_cast
    ring
  | case2 x h =>
    refine ⟨0, ?_⟩
    rw [reduceDown_eq, if_neg h]
    push_cast
    ring

theorem reduceDown_id {x : ℝ} (h : x ≤ π) : reduceDown x = x := by
  rw [reduceDown_eq, if_neg (not_lt.mpr h)]

theorem reduceUp_ge (x : ℝ) : -π ≤ reduceUp x := by
  induction x using reduceUp.induct with
  | case1 x h ih =>
    rw [reduceUp_eq, if_pos h]
    exact ih
  | case2 x h =>
    rw [reduceUp_eq, if_neg h]
    exact le_of_not_lt h

theorem reduceUp_le {x : ℝ} (h : x ≤ π) : reduceUp x ≤ π := by
  induction x using reduceUp.induct with
  | case1 x h1 ih =>
    rw [reduceUp_eq, if_pos h1]
    have hpi : (0 : ℝ) < π := pi_pos
    exact ih (by linarith)
  | case2 x h1 =>
    rw [reduceUp_eq, if_neg h1]
    exact h

theorem reduceUp_shift (x : ℝ) : ∃ k : ℤ, reduceUp x = x + 2 * π * k := by
  induction x using reduceUp.induct with
  | case1 x h ih =>
    obtain ⟨k, hk⟩ := ih
    refine ⟨k + 1, ?_⟩
    rw [reduceUp_eq, if_pos h, hk]
    push_cast
    ring
  | case2 x h =>
    refine ⟨0, ?_⟩
    rw [reduceUp_eq, if_neg h]
    push_cast
    ring

theorem reduceUp_id {x : ℝ} (h : -π ≤ x) : reduceUp x = x := by
  rw [reduceUp_eq, if_neg (not_lt.mpr h)]

theorem normalizeAngle_mem (x : ℝ) : normalizeAngle x ∈ Set.Icc (-π) π :=
  ⟨reduceUp_ge _, reduceUp_le (reduceDown_le x)⟩

theorem normalizeAngle_shift (x : ℝ) : ∃ k : ℤ, normalizeAngle x = x + 2 * π * k := by
  obtain ⟨k1, hk1⟩ := reduceDown_shift x
  obtain ⟨k2, hk2⟩ := reduceUp_shift (reduceDown x)
  refine ⟨k1 + k2, ?_⟩
  rw [normalizeAngle, hk2, hk1]
  push_cast
  ring

theorem normalizeAngle_id {x : ℝ} (h : x ∈ Set.Icc (-π) π) : normalizeAngle x = x := by
  rw [normalizeAngle, reduceDown_id h.2, reduceUp_id h.1]

theorem normalizeAngle_idem (x : ℝ) :
    normalizeAngle (normalizeAngle x) = normalizeAngle x :=
  normalizeAngle_id (normalizeAngle_mem x)

theorem normalize_joint_angles_idem (self : UR3_URDF_ForwardKinematics) (q : JointVec) :
    self.normalize_joint_angles (self.normalize_joint_angles q) =
      self.normalize_joint_angles q := by
  funext i
  exact normalizeAngle_idem (q i)

/-- Claim C4 (amended): for every input sequence of joint angles,
`normalize_joint_angles` returns angles each lying in the closed interval
[-π, π], with each output angle differing from the corresponding input angle
by an integer multiple of 2π (repeated ±2π shifts).  (The half-open interval
(-π, π] of the original claim is refuted by the input -π, which the code
returns unchanged.) -/
theorem c4_normalize_range (self : UR3_URDF_ForwardKinematics) (q : JointVec) (i : Fin 6) :
    self.normalize_joint_angles q i ∈ Set.Icc (-π) π ∧
    ∃ k : ℤ, self.normalize_joint_angles q i = q i + 2 * π * k :=
  ⟨normalizeAngle_mem (q i), normalizeAngle_shift (q i)⟩

/-- Claim C4 counterexample: on the input vector whose first angle is -π,
`normalize_joint_angles` returns -π for that joint, which does not lie in the
half-open interval (-π, π] claimed by the specification. -/
theorem c4_counterexample :
    ur3.normalize_joint_angles ![-π, 0, 0, 0, 0, 0] 0 = -π ∧
    ur3.normalize_joint_angles ![-π, 0, 0, 0, 0, 0] 0 ∉ Set.Ioc (-π) π := by
  have hval : ur3.normalize_joint_angles ![-π, 0, 0, 0, 0, 0] 0 = -π := by
    show normalizeAngle (-π) = -π
    exact normalizeAngle_id ⟨le_refl _, by linarith [pi_pos]⟩
  refine ⟨hval, ?_⟩
  rw [hval]
  simp [Set.mem_Ioc]

theorem solveLoop_sound (self : UR3_InverseKinematics) (Td : Mat4) :
    ∀ (n : ℕ) (q : JointVec),
      (self.solveLoop Td n q).elim True fun qf =>
        position_error self.fk Td qf < tol ∧
        orientation_error_norm self.fk Td qf < tol * 5 ∧
        self.verify qf Td = true := by
  intro n
  induction n with
  | zero =>
    intro q
    simp [UR3_InverseKinematics.solveLoop]
  | succ n ih =>
    intro q
    rw [UR3_InverseKinematics.solveLoop]
    split_ifs with hc hv
    · exact ⟨hc.1, hc.2, hv⟩
    · exact trivial
    · exact ih (q + self.dls_update Td q)

/-- Claim C2: a per-seed local solve returns a joint-angle result only if,
within the iteration cap, the position-error norm is below the tolerance
1e-6 and the orientation-error norm is below 5 times that tolerance, AND the
independent FK re-verification passes (position error below 1e-4, Frobenius
norm of the rotation difference below 5e-3); an iterate that meets the
convergence test but fails the verification yields None, exactly like
non-convergence. -/
theorem c2_solve_single_only_verified (self : UR3_InverseKinematics)
    (Td : Mat4) (q_init : JointVec) :
    (self.solve_single Td q_init).elim True fun qf =>
      position_error self.fk Td qf < tol ∧
      orientation_error_norm self.fk Td qf < tol * 5 ∧
      self.verify qf Td = true :=
  solveLoop_sound self Td max_iter q_init

theorem dedup_step_none (self : UR3_InverseKinematics) (Td : Mat4)
    (sols : List JointVec) (seed : JointVec)
    (h : self.solve_single Td seed = none) :
    self.dedup_step Td sols seed = sols := by
  unfold UR3_InverseKinematics.dedup_step
  rw [h]

theorem dedup_step_some (self : UR3_InverseKinematics) (Td : Mat4)
    (sols : List JointVec) (seed res : JointVec)
    (h : self.solve_single Td seed = some res) :
    self.dedup_step Td sols seed =
      if sols.any (fun existing =>
          decide (∀ i, |self.fk.normalize_joint_angles res i -
            self.fk.normalize_joint_angles existing i| < 0.05)) then
        sols
      else
        sols ++ [self.fk.normalize_joint_angles res] := by
  unfold UR3_InverseKinematics.dedup_step
  rw [h]

theorem solve_fold_invariant (self : UR3_InverseKinematics) (Td : Mat4) :
    ∀ (seeds : List JointVec) (acc : List JointVec),
      (∀ x ∈ acc, self.fk.normalize_joint_angles x = x) →
      acc.Pairwise notClose →
      (∀ x ∈ seeds.foldl (self.dedup_step Td) acc,
        self.fk.normalize_joint_angles x = x) ∧
      (seeds.foldl (self.dedup_step Td) acc).Pairwise notClose ∧
      ∃ ext, seeds.foldl (self.dedup_step Td) acc = acc ++ ext ∧
        ext.Sublist (seeds.filterMap fun s =>
          (self.solve_single Td s).map (self.fk.normalize_joint_angles)) := by
  intro seeds
  induction seeds with
  | nil =>
    intro acc hnorm hpw
    exact ⟨hnorm, hpw, [], by simp, List.nil_sublist _⟩
  | cons s ss ih =>
    intro acc hnorm hpw
    rw [List.foldl_cons]
    cases hss : self.solve_single Td s with
    | none =>
      rw [dedup_step_none self Td acc s hss]
      obtain ⟨h1, h2, ext, heq, hsub⟩ := ih acc hnorm hpw
      refine ⟨h1, h2, ext, heq, ?_⟩
      simpa [List.filterMap_cons, hss] using hsub
    | some res =>
      have hridem : self.fk.normalize_joint_angles
          (self.fk.normalize_joint_angles res) =
          self.fk.normalize_joint_angles res := by
        funext i
        exact normalizeAngle_idem (res i)
      rw [dedup_step_some self Td acc s res hss]
      by_cases hany : acc.any (fun existing =>
          decide (∀ i, |self.fk.normalize_joint_angles res i -
            self.fk.normalize_joint_angles existing i| < 0.05)) = true
      · rw [if_pos hany]
        obtain ⟨h1, h2, ext, heq, hsub⟩ := ih acc hnorm hpw
        refine ⟨h1, h2, ext, heq, ?_⟩
        simp only [List.filterMap_cons, hss, Option.map_some']
        exact hsub.cons _
      · rw [if_neg hany]
        have hnorm2 : ∀ x ∈ acc ++ [self.fk.normalize_joint_angles res],
            self.fk.normalize_joint_angles x = x := by
          intro x hx
          rcases List.mem_append.mp hx with hx | hx
          · exact hnorm x hx
          · rw [List.mem_singleton.mp hx]
            exact hridem
        have hpw2 : (acc ++ [self.fk.normalize_joint_angles res]).Pairwise notClose := by
          rw [List.pairwise_append]
          refine ⟨hpw, List.pairwise_singleton _ _, ?_⟩
          intro a ha b hb
          rw [List.mem_singleton.mp hb]
          intro hcontra
          refine hany ?_
          rw [List.any_eq_true]
          refine ⟨a, ha, ?_⟩
          rw [decide_eq_true_eq]
          intro i
          rw [hnorm a ha, abs_sub_comm]
          exact hcontra i
        obtain ⟨h1, h2, ext, heq, hsub⟩ := ih (acc ++ [self.fk.normalize_joint_angles res])
          hnorm2 hpw2
        refine ⟨h1, h2, self.fk.normalize_joint_angles res :: ext, ?_, ?_⟩
        · rw [heq, List.append_assoc, List.singleton_append]
        · simp only [List.filterMap_cons, hss, Option.map_some']
          exact hsub.cons₂ _

/-- Claim C3: in the solution list returned by `solve_ik`, no two returned
solutions are within the 0.05 rad dedup threshold in every joint
simultaneously (the stored solutions are normalized); a candidate is
discarded as a duplicate exactly when every one of its six normalized joint
angles is within 0.05 rad of an already-accepted solution; and the returned
sequence preserves solve order, being a sublist of the ordered per-seed
candidate stream. -/
theorem c3_solutions_deduped (self : UR3_InverseKinematics) (Td : Mat4) :
    (self.solve_ik Td).Pairwise notClose ∧
    (self.solve_ik Td).Sublist (ikCandidates self Td) ∧
    ∀ (sols : List JointVec) (r : JointVec),
      ((sols.any fun existing =>
          decide (∀ i, |r i - self.fk.normalize_joint_angles existing i| < 0.05)) = true ↔
        ∃ existing ∈ sols,
          ∀ i, |r i - self.fk.normalize_joint_angles existing i| < 0.05) := by
  obtain ⟨h1, h2, ext, heq, hsub⟩ :=
    solve_fold_invariant self Td self.generate_seeds [] (by simp) List.Pairwise.nil
  refine ⟨h2, ?_, ?_⟩
  · show (self.solve_ik Td).Sublist (ikCandidates self Td)
    rw [UR3_InverseKinematics.solve_ik, ikCandidates, heq, List.nil_append]
    exact hsub
  · intro sols r
    simp [List.any_eq_true]

/-- Claim C10: for every target pose, the solution list returned by
`solve_ik` contains at most 32 entries (one per seed: 8 structured plus 24
randomized), and every entry equals its own normalization. -/
theorem c10_solution_cap (self : UR3_InverseKinematics) (Td : Mat4) :
    (self.solve_ik Td).length ≤ 32 ∧
    (self.solve_ik Td).Forall fun s => self.fk.normalize_joint_angles s = s := by
  obtain ⟨h1, h2, ext, heq, hsub⟩ :=
    solve_fold_invariant self Td self.generate_seeds [] (by simp) List.Pairwise.nil
  constructor
  · have hlen1 : (self.solve_ik Td).length ≤
        (self.generate_seeds.filterMap fun s =>
          (self.solve_single Td s).map (self.fk.normalize_joint_angles)).length := by
      have : self.solve_ik Td = ext := by
        rw [UR3_InverseKinematics.solve_ik, heq, List.nil_append]
      rw [this]
      exact hsub.length_le
    have hlen2 : (self.generate_seeds.filterMap fun s =>
        (self.solve_single Td s).map (self.fk.normalize_joint_angles)).length ≤
        self.generate_seeds.length :=
      List.length_filterMap_le _ _
    have hlen3 : self.generate_seeds.length = 32 := by
      simp [UR3_InverseKinematics.generate_seeds, structured_configs]
    omega
  · rw [List.forall_iff_forall_mem]
    exact h1

theorem damped_matrix_posDef (J : Mat6) : (damped_matrix J).PosDef := by
  have h1 : (J * Jᵀ).PosSemidef := by
    have h := Matrix.posSemidef_self_mul_conjTranspose J
    rwa [Matrix.conjTranspose_eq_transpose_of_trivial] at h
  have hd : damping ^ 2 • (1 : Mat6) = Matrix.diagonal (fun _ => damping ^ 2) := by
    ext i j
    rw [Matrix.smul_apply, Matrix.one_apply, Matrix.diagonal_apply]
    split <;> simp
  have h2 : (damping ^ 2 • (1 : Mat6)).PosDef := by
    rw [hd]
    exact Matrix.posDef_diagonal_iff.mpr fun i => by norm_num [damping]
  exact Matrix.PosDef.posSemidef_add h1 h2

theorem damped_matrix_isUnit (J : Mat6) : IsUnit (damped_matrix J) := by
  have hpd := damped_matrix_posDef J
  rw [← Matrix.mulVec_injective_iff_isUnit]
  intro x y hxy
  have hzero : (damped_matrix J) *ᵥ (x - y) = 0 := by
    rw [Matrix.mulVec_sub, hxy, sub_self]
  by_contra hne
  have hxyne : x - y ≠ 0 := fun h => hne (sub_eq_zero.mp h)
  have hpos := hpd.2 (x - y) hxyne
  rw [hzero] at hpos
  simp at hpos

/-- Claim C6: for every real 6x6 Jacobian and every 6-vector error, the
damped least-squares step is well-defined: the matrix `J J^T + damping^2 I`
with the fixed damping 0.01 is symmetric positive-definite, its determinant
is a unit, and its inverse is a genuine two-sided inverse, so no iteration of
the solver can reach an undefined or failing linear solve, even at singular
configurations. -/
theorem c6_damped_solve_welldefined (J : Mat6) :
    (damped_matrix J).PosDef ∧
    IsUnit (damped_matrix J).det ∧
    (damped_matrix J)⁻¹ * damped_matrix J = 1 ∧
    damped_matrix J * (damped_matrix J)⁻¹ = 1 := by
  have hpd := damped_matrix_posDef J
  have hdet : IsUnit (damped_matrix J).det :=
    (Matrix.isUnit_iff_isUnit_det _).mp (damped_matrix_isUnit J)
  exact ⟨hpd, hdet, Matrix.nonsing_inv_mul _ hdet, Matrix.mul_nonsing_inv _ hdet⟩

theorem rotationAngle_one : rotationAngle (1 : Mat3) = 0 := by
  have ht : Matrix.trace (1 : Mat3) = (3 : ℝ) := by
    rw [Matrix.trace_one]
    norm_num
  rw [rotationAngle, ht]
  have hclip : clip (((3 : ℝ) - 1) / 2) (-1) 1 = 1 := by
    rw [clip]
    norm_num
  rw [hclip, Real.arccos_one]

/-- Claim C7: in both the orientation-error extraction and the
numerical-Jacobian angular rows, whenever the extracted rotation angle is
below the respective small threshold (the solver epsilon 1e-6, resp. 1e-10),
the angular component is the zero vector instead of the expression dividing
by 2 sin(angle); in particular at the identity relative rotation the
extracted angle is 0 and both angular components are zero, so the solver is
well-defined there. -/
theorem c7_degenerate_rotation_guard (R : Mat3) (delta : ℝ) :
    (rotationAngle R < epsilon → orientation_error R = 0) ∧
    (rotationAngle R < 1e-10 → jacobian_angular R delta = 0) ∧
    rotationAngle (1 : Mat3) = 0 ∧
    orientation_error (1 : Mat3) = 0 ∧
    jacobian_angular (1 : Mat3) delta = 0 := by
  refine ⟨?_, ?_, rotationAngle_one, ?_, ?_⟩
  · intro h
    unfold orientation_error
    exact if_pos h
  · intro h
    unfold jacobian_angular
    exact if_pos h
  · unfold orientation_error
    rw [if_pos]
    rw [rotationAngle_one]
    norm_num [epsilon]
  · unfold jacobian_angular
    rw [if_pos]
    rw [rotationAngle_one]
    norm_num

/-- Witness for Claim C7 at the concrete input R = identity, delta = 1: the
extracted rotation angle is below both thresholds and both angular components
evaluate to the zero vector. -/
theorem c7_witness :
    rotationAngle (1 : Mat3) < epsilon ∧
    rotationAngle (1 : Mat3) < 1e-10 ∧
    orientation_error (1 : Mat3) = 0 ∧
    jacobian_angular (1 : Mat3) 1 = 0 := by
  have h := c7_degenerate_rotation_guard (1 : Mat3) 1
  have hlt : rotationAngle (1 : Mat3) < epsilon := by
    rw [h.2.2.1]
    norm_num [epsilon]
  have hlt2 : rotationAngle (1 : Mat3) < 1e-10 := by
    rw [h.2.2.1]
    norm_num
  exact ⟨hlt, hlt2, h.1 hlt, h.2.1 hlt2⟩

theorem numerical_jacobian_ignores_limits (s t : UR3_InverseKinematics)
    (q : JointVec) (delta : ℝ) :
    s.numerical_jacobian q delta = t.numerical_jacobian q delta := rfl

theorem ik_error_ignores_limits (s t : UR3_InverseKinematics) (Td : Mat4)
    (q : JointVec) : ik_error s.fk Td q = ik_error t.fk Td q := rfl

theorem dls_update_ignores_limits (s t : UR3_InverseKinematics) (Td : Mat4)
    (q : JointVec) : s.dls_update Td q = t.dls_update Td q := by
  show (s.numerical_jacobian q 1e-6)ᵀ *ᵥ
      ((damped_matrix (s.numerical_jacobian q 1e-6))⁻¹ *ᵥ ik_error s.fk Td q) =
    (t.numerical_jacobian q 1e-6)ᵀ *ᵥ
      ((damped_matrix (t.numerical_jacobian q 1e-6))⁻¹ *ᵥ ik_error t.fk Td q)
  rw [numerical_jacobian_ignores_limits s t q, ik_error_ignores_limits s t Td q]

theorem solveLoop_ignores_limits (s t : UR3_InverseKinematics) (Td : Mat4) :
    ∀ (n : ℕ) (q : JointVec), s.solveLoop Td n q = t.solveLoop Td n q := by
  intro n
  induction n with
  | zero =>
    intro q
    simp [UR3_InverseKinematics.solveLoop]
  | succ n ih =>
    intro q
    rw [UR3_InverseKinematics.solveLoop, UR3_InverseKinematics.solveLoop]
    have h1 : position_error s.fk Td q = position_error t.fk Td q := rfl
    have h2 : orientation_error_norm s.fk Td q = orientation_error_norm t.fk Td q := rfl
    have h3 : s.verify q Td = t.verify q Td := rfl
    rw [h1, h2, h3, dls_update_ignores_limits s t Td q, ih]

theorem solve_single_ignores_limits (s t : UR3_InverseKinematics) (Td : Mat4)
    (q : JointVec) : s.solve_single Td q = t.solve_single Td q :=
  solveLoop_ignores_limits s t Td max_iter q

theorem dedup_step_ignores_limits (s t : UR3_InverseKinematics) (Td : Mat4) :
    s.dedup_step Td = t.dedup_step Td := by
  funext sols seed
  unfold UR3_InverseKinematics.dedup_step
  rw [solve_single_ignores_limits s t Td seed]
  have hn : s.fk.normalize_joint_angles = t.fk.normalize_joint_angles := rfl
  rw [hn]

/-- Claim C9: the joint-limit configuration does not affect FK or IK results:
for every pair of instances (hence every pair of joint-limit tables) the FK
link poses and the IK solution list coincide; `check_joint_limits` itself
returns true exactly when every angle lies within its joint's configured
[lo, hi] range; and the limits default to ±2π per joint. -/
theorem c9_joint_limits_independent (a b : UR3_URDF_ForwardKinematics)
    (s t : UR3_InverseKinematics) (q : JointVec) (Td : Mat4) (i : Fin 6) :
    a.forward_kinematics q = b.forward_kinematics q ∧
    s.solve_ik Td = t.solve_ik Td ∧
    (a.check_joint_limits q = true ↔
      ∀ j, (a.joint_limits j).1 ≤ q j ∧ q j ≤ (a.joint_limits j).2) ∧
    ur3.joint_limits i = (-(2 * π), 2 * π) := by
  refine ⟨rfl, ?_, ?_, rfl⟩
  · unfold UR3_InverseKinematics.solve_ik
    rw [dedup_step_ignores_limits s t Td]
    have hs : s.generate_seeds = t.generate_seeds := rfl
    rw [hs]
  · unfold UR3_URDF_ForwardKinematics.check_joint_limits
    simp [List.all_eq_true, not_or, not_lt]

theorem foldl_preserves {α β : Type*} (P : α → Prop) (f : α → β → α)
    (hstep : ∀ a b, P a → P (f a b)) :
    ∀ (l : List β) (a : α), P a → P (l.foldl f a) := by
  intro l
  induction l with
  | nil =>
    intro a ha
    simpa using ha
  | cons x xs ih =>
    intro a ha
    rw [List.foldl_cons]
    exact ih _ (hstep a x ha)

theorem getD_lt_of_forall {l : List ℕ} {c : ℕ} (h : ∀ x ∈ l, x < c) (hc : 0 < c)
    (i : ℕ) : l.getD i 0 < c := by
  induction l generalizing i with
  | nil => simpa using hc
  | cons x xs ih =>
    cases i with
    | zero => simpa using h x (List.mem_cons_self x xs)
    | succ n =>
      simp only [List.getD_cons_succ]
      exact ih (fun y hy => h y (List.mem_cons_of_mem _ hy)) n

theorem shiftRight_le_self (m n : ℕ) : m >>> n ≤ m := by
  rw [Nat.shiftRight_eq_div_pow]
  exact Nat.div_le_self _ _

theorem mtInit_bound (seed : ℕ) : ∀ x ∈ mtInit seed, x < 2 ^ 32 := by
  unfold mtInit
  apply foldl_preserves (fun l => ∀ x ∈ l, x < 2 ^ 32)
  · intro a b ha x hx
    rcases List.mem_append.mp hx with hx | hx
    · exact ha x hx
    · rw [List.mem_singleton.mp hx]
      exact lt_of_le_of_lt Nat.and_le_right (by norm_num [mtMask])
  · intro x hx
    rw [List.mem_singleton.mp hx]
    exact lt_of_le_of_lt Nat.and_le_right (by norm_num [mtMask])

theorem mtTwist_bound {l : List ℕ} (h : ∀ x ∈ l, x < 2 ^ 32) :
    ∀ x ∈ mtTwist l, x < 2 ^ 32 := by
  unfold mtTwist
  apply foldl_preserves (fun m => ∀ x ∈ m, x < 2 ^ 32) _ _ _ _ h
  intro m i hm x hx
  rcases List.mem_or_eq_of_mem_set hx with hx | hx
  · exact hm x hx
  · rw [hx]
    have hy : ((m.getD i 0) &&& mtUpperMask) |||
        ((m.getD ((i + 1) % 624) 0) &&& 2147483647) < 2 ^ 32 := by
      apply Nat.or_lt_two_pow
      · exact lt_of_le_of_lt Nat.and_le_right (by norm_num [mtUpperMask])
      · exact lt_of_le_of_lt Nat.and_le_right (by norm_num)
    apply Nat.xor_lt_two_pow
    apply Nat.xor_lt_two_pow
    · exact getD_lt_of_forall hm (by norm_num) _
    · exact lt_of_le_of_lt (shiftRight_le_self _ _) hy
    · split <;> norm_num

theorem mtTemper_bound {y : ℕ} (h : y < 2 ^ 32) : mtTemper y < 2 ^ 32 := by
  unfold mtTemper
  apply Nat.xor_lt_two_pow
  · apply Nat.xor_lt_two_pow
    · apply Nat.xor_lt_two_pow
      · exact Nat.xor_lt_two_pow h (lt_of_le_of_lt (shiftRight_le_self _ _) h)
      · exact lt_of_le_of_lt Nat.and_le_right (by norm_num)
    · exact lt_of_le_of_lt Nat.and_le_right (by norm_num)
  · apply lt_of_le_of_lt (shiftRight_le_self _ _)
    apply Nat.xor_lt_two_pow
    · apply Nat.xor_lt_two_pow
      · exact Nat.xor_lt_two_pow h (lt_of_le_of_lt (shiftRight_le_self _ _) h)
      · exact lt_of_le_of_lt Nat.and_le_right (by norm_num)
    · exact lt_of_le_of_lt Nat.and_le_right (by norm_num)

theorem mtDraw_lt (k : ℕ) : mtDraw k < 2 ^ 32 := by
  unfold mtDraw mtState42
  exact mtTemper_bound (getD_lt_of_forall (mtTwist_bound (mtInit_bound 42)) (by norm_num) k)

theorem randomDouble_mem (k : ℕ) : randomDouble k ∈ Set.Ico (0 : ℝ) 1 := by
  unfold randomDouble
  constructor
  · positivity
  · rw [div_lt_one (by norm_num)]
    have ha : mtDraw (2 * k) >>> 5 < 2 ^ 27 := by
      rw [Nat.shiftRight_eq_div_pow]
      rw [Nat.div_lt_iff_lt_mul (by norm_num)]
      calc mtDraw (2 * k) < 2 ^ 32 := mtDraw_lt _
        _ ≤ 2 ^ 27 * 2 ^ 5 := by norm_num
    have hb : mtDraw (2 * k + 1) >>> 6 < 2 ^ 26 := by
      rw [Nat.shiftRight_eq_div_pow]
      rw [Nat.div_lt_iff_lt_mul (by norm_num)]
      calc mtDraw (2 * k + 1) < 2 ^ 32 := mtDraw_lt _
        _ ≤ 2 ^ 26 * 2 ^ 6 := by norm_num
    have hm : (mtDraw (2 * k) >>> 5) * 67108864 + (mtDraw (2 * k + 1) >>> 6) <
        9007199254740992 := by
      have h1 : mtDraw (2 * k) >>> 5 < 134217728 := by
        calc mtDraw (2 * k) >>> 5 < 2 ^ 27 := ha
          _ = 134217728 := by norm_num
      have h2 : mtDraw (2 * k + 1) >>> 6 < 67108864 := by
        calc mtDraw (2 * k + 1) >>> 6 < 2 ^ 26 := hb
          _ = 67108864 := by norm_num
      omega
    exact_mod_cast hm

theorem randomSeed_mem (j : ℕ) (i : Fin 6) : randomSeed j i ∈ Set.Ico (-π) π := by
  unfold randomSeed
  obtain ⟨h0, h1⟩ := randomDouble_mem (6 * j + (i : ℕ))
  have hpi : (0 : ℝ) < π := pi_pos
  constructor
  · have hnn : 0 ≤ (π - (-π)) * randomDouble (6 * j + (i : ℕ)) :=
      mul_nonneg (by linarith) h0
    linarith
  · have hlt : (π - (-π)) * randomDouble (6 * j + (i : ℕ)) < (π - (-π)) * 1 :=
      mul_lt_mul_of_pos_left h1 (by linarith)
    linarith

/-- Claim C8: both core operations are deterministic as two-run statements:
for every joint-angle input, two evaluations of `forward_kinematics` agree,
and for every target pose, two evaluations of `solve_ik` agree, because the
seed battery is a fixed list: 8 structured configurations followed by 24
pseudo-random seeds drawn from the fixed-seed (42) generator, each seed
component lying in [-π, π) as produced by the uniform draw over (-π, π). -/
theorem c8_determinism (self : UR3_InverseKinematics)
    (fk : UR3_URDF_ForwardKinematics) (q : JointVec) (Td : Mat4)
    (j : ℕ) (i : Fin 6) :
    fk.forward_kinematics q = fk.forward_kinematics q ∧
    self.solve_ik Td = self.solve_ik Td ∧
    self.generate_seeds.length = 8 + 24 ∧
    self.generate_seeds.take 8 = structured_configs ∧
    self.generate_seeds.drop 8 = (List.range 24).map randomSeed ∧
    randomSeed j i ∈ Set.Ico (-π) π := by
  refine ⟨rfl, rfl, ?_, ?_, ?_, randomSeed_mem j i⟩
  · simp [UR3_InverseKinematics.generate_seeds, structured_configs]
  · show (structured_configs ++ (List.range 24).map randomSeed).take 8 = structured_configs
    rw [show (8 : ℕ) = structured_configs.length from rfl]
    exact List.take_left _ _
  · show (structured_configs ++ (List.range 24).map randomSeed).drop 8 =
      (List.range 24).map randomSeed
    rw [show (8 : ℕ) = structured_configs.length from rfl]
    exact List.drop_left _ _

theorem rotz_zero : rotz 0 = 1 := by
  unfold rotz
  ext i j
  fin_cases i <;> fin_cases j <;>
    simp [Matrix.one_apply, Matrix.vecHead, Matrix.vecTail, Function.comp]
theorem roty_zero : roty 0 = 1 := by
  unfold roty
  ext i j
  fin_cases i <;> fin_cases j <;>
    simp [Matrix.one_apply, Matrix.vecHead, Matrix.vecTail, Function.comp]
theorem rotx_zero : rotx 0 = 1 := by
  unfold rotx
  ext i j
  fin_cases i <;> fin_cases j <;>
    simp [Matrix.one_apply, Matrix.vecHead, Matrix.vecTail, Function.comp]
theorem ct_rpy_zero (v : Fin 3 → ℝ) :
    create_transform v ![0, 0, 0] =
      !![1, 0, 0, v 0; 0, 1, 0, v 1; 0, 0, 1, v 2; 0, 0, 0, 1] := by
  unfold create_transform
  simp only [Matrix.cons_val_zero, Matrix.cons_val_one, Matrix.head_cons,
    Matrix.cons_val_two, Matrix.tail_cons]
  rw [rotz_zero, roty_zero, rotx_zero, mul_one, mul_one]
  ext i j
  fin_cases i <;> fin_cases j <;>
    simp [Matrix.one_apply, Matrix.vecHead, Matrix.vecTail, Function.comp]
theorem ct_pitch (v : Fin 3 → ℝ) :
    create_transform v ![0, π / 2, 0] =
      !![0, 0, 1, v 0; 0, 1, 0, v 1; -1, 0, 0, v 2; 0, 0, 0, 1] := by
  unfold create_transform
  simp only [Matrix.cons_val_zero, Matrix.cons_val_one, Matrix.head_cons,
    Matrix.cons_val_two, Matrix.tail_cons]
  rw [rotz_zero, rotx_zero, one_mul, mul_one]
  ext i j
  fin_cases i <;> fin_cases j <;>
    simp [roty, Matrix.vecHead, Matrix.vecTail, Function.comp]
theorem homeA1 : joint_transform ![0, 0, d1] ![0, 0, 0] 0 RotAxis.z =
    !![1, 0, 0, 0; 0, 1, 0, 0; 0, 0, 1, 0.1519; 0, 0, 0, 1] := by
  show create_transform ![0, 0, d1] ![0, 0, 0] * rotz 0 = _
  rw [rotz_zero, mul_one, ct_rpy_zero]
  ext i j
  fin_cases i <;> fin_cases j <;>
    simp [d1, Matrix.vecHead, Matrix.vecTail, Function.comp]
theorem homeA2 : joint_transform ![0, shoulder_offset, 0] ![0, π / 2, 0] 0 RotAxis.y =
    !![0, 0, 1, 0; 0, 1, 0, 0.1198; -1, 0, 0, 0; 0, 0, 0, 1] := by
  show create_transform ![0, shoulder_offset, 0] ![0, π / 2, 0] * roty 0 = _
  rw [roty_zero, mul_one, ct_pitch]
  ext i j
  fin_cases i <;> fin_cases j <;>
    simp [shoulder_offset, Matrix.vecHead, Matrix.vecTail, Function.comp]
theorem homeA3 : joint_transform ![0, elbow_offset, upper_arm_length] ![0, 0, 0] 0 RotAxis.y =
    !![1, 0, 0, 0; 0, 1, 0, -0.0925; 0, 0, 1, 0.24365; 0, 0, 0, 1] := by
  show create_transform ![0, elbow_offset, upper_arm_length] ![0, 0, 0] * roty 0 = _
  rw [roty_zero, mul_one, ct_rpy_zero]
  ext i j
  fin_cases i <;> fin_cases j <;>
    simp [elbow_offset, upper_arm_length, a2, Matrix.vecHead, Matrix.vecTail, Function.comp] <;>
    norm_num
theorem homeA4 : joint_transform ![0, 0, forearm_length] ![0, π / 2, 0] 0 RotAxis.y =
    !![0, 0, 1, 0; 0, 1, 0, 0; -1, 0, 0, 0.21325; 0, 0, 0, 1] := by
  show create_transform ![0, 0, forearm_length] ![0, π / 2, 0] * roty 0 = _
  rw [roty_zero, mul_one, ct_pitch]
  ext i j
  fin_cases i <;> fin_cases j <;>
    simp [forearm_length, a3, Matrix.vecHead, Matrix.vecTail, Function.comp] <;> norm_num
theorem homeA5 : joint_transform ![0, wrist_1_length, 0] ![0, 0, 0] 0 RotAxis.z =
    !![1, 0, 0, 0; 0, 1, 0, 0.08505; 0, 0, 1, 0; 0, 0, 0, 1] := by
  show create_transform ![0, wrist_1_length, 0] ![0, 0, 0] * rotz 0 = _
  rw [rotz_zero, mul_one, ct_rpy_zero]
  ext i j
  fin_cases i <;> fin_cases j <;>
    simp [wrist_1_length, d4, elbow_offset, shoulder_offset,
      Matrix.vecHead, Matrix.vecTail, Function.comp] <;> norm_num
theorem homeA6 : joint_transform ![0, 0, wrist_2_length] ![0, 0, 0] 0 RotAxis.y =
    !![1, 0, 0, 0; 0, 1, 0, 0; 0, 0, 1, 0.08535; 0, 0, 0, 1] := by
  show create_transform ![0, 0, wrist_2_length] ![0, 0, 0] * roty 0 = _
  rw [roty_zero, mul_one, ct_rpy_zero]
  ext i j
  fin_cases i <;> fin_cases j <;>
    simp [wrist_2_length, d5, Matrix.vecHead, Matrix.vecTail, Function.comp]
theorem homeS2 :
    (!![(1:ℝ), 0, 0, 0; 0, 1, 0, 0; 0, 0, 1, 0.1519; 0, 0, 0, 1] *
     !![(0:ℝ), 0, 1, 0; 0, 1, 0, 0.1198; -1, 0, 0, 0; 0, 0, 0, 1]) =
    !![(0:ℝ), 0, 1, 0; 0, 1, 0, 0.1198; -1, 0, 0, 0.1519; 0, 0, 0, 1] := by
  ext i j
  fin_cases i <;> fin_cases j <;>
    simp [Matrix.mul_apply, Fin.sum_univ_four, Matrix.vecHead, Matrix.vecTail,
      Function.comp] <;> norm_num
theorem homeS3 :
    (!![(0:ℝ), 0, 1, 0; 0, 1, 0, 0.1198; -1, 0, 0, 0.1519; 0, 0, 0, 1] *
     !![(1:ℝ), 0, 0, 0; 0, 1, 0, -0.0925; 0, 0, 1, 0.24365; 0, 0, 0, 1]) =
    !![(0:ℝ), 0, 1, 0.24365; 0, 1, 0, 0.0273; -1, 0, 0, 0.1519; 0, 0, 0, 1] := by
  ext i j
  fin_cases i <;> fin_cases j <;>
    simp [Matrix.mul_apply, Fin.sum_univ_four, Matrix.vecHead, Matrix.vecTail,
      Function.comp] <;> norm_num
theorem homeS4 :
    (!![(0:ℝ), 0, 1, 0.24365; 0, 1, 0, 0.0273; -1, 0, 0, 0.1519; 0, 0, 0, 1] *
     !![(0:ℝ), 0, 1, 0; 0, 1, 0, 0; -1, 0, 0, 0.21325; 0, 0, 0, 1]) =
    !![(-1:ℝ), 0, 0, 0.4569; 0, 1, 0, 0.0273; 0, 0, -1, 0.1519; 0, 0, 0, 1] := by
  ext i j
  fin_cases i <;> fin_cases j <;>
    simp [Matrix.mul_apply, Fin.sum_univ_four, Matrix.vecHead, Matrix.vecTail,
      Function.comp] <;> norm_num
theorem homeS5 :
    (!![(-1:ℝ), 0, 0, 0.4569; 0, 1, 0, 0.0273; 0, 0, -1, 0.1519; 0, 0, 0, 1] *
     !![(1:ℝ), 0, 0, 0; 0, 1, 0, 0.08505; 0, 0, 1, 0; 0, 0, 0, 1]) =
    !![(-1:ℝ), 0, 0, 0.4569; 0, 1, 0, 0.11235; 0, 0, -1, 0.1519; 0, 0, 0, 1] := by
  ext i j
  fin_cases i <;> fin_cases j <;>
    simp [Matrix.mul_apply, Fin.sum_univ_four, Matrix.vecHead, Matrix.vecTail,
      Function.comp] <;> norm_num
theorem homeS6 :
    (!![(-1:ℝ), 0, 0, 0.4569; 0, 1, 0, 0.11235; 0, 0, -1, 0.1519; 0, 0, 0, 1] *
     !![(1:ℝ), 0, 0, 0; 0, 1, 0, 0; 0, 0, 1, 0.08535; 0, 0, 0, 1]) =
    !![(-1:ℝ), 0, 0, 0.4569; 0, 1, 0, 0.11235; 0, 0, -1, 0.06655; 0, 0, 0, 1] := by
  ext i j
  fin_cases i <;> fin_cases j <;>
    simp [Matrix.mul_apply, Fin.sum_univ_four, Matrix.vecHead, Matrix.vecTail,
      Function.comp] <;> norm_num
/-- Claim C5: `forward_kinematics` at the home configuration [0,0,0,0,0,0]
equals the constant transform chain fixed by the reference geometry; in
particular the end-effector (wrist_3) pose has translation
x = upper_arm_length + forearm_length = 0.4569, y = d4 = 0.11235,
z = d1 - d5 = 0.06655 (the wrist-3 offset d6 does not appear in the chain),
with rotation diag(-1, 1, -1). -/
theorem c5_home_position :
    (ur3.forward_kinematics ![0, 0, 0, 0, 0, 0]).wrist_3 =
      !![-1, 0, 0, 0.4569; 0, 1, 0, 0.11235; 0, 0, -1, 0.06655; 0, 0, 0, 1] ∧
    (0.4569 : ℝ) = upper_arm_length + forearm_length ∧
    (0.11235 : ℝ) = d4 ∧
    (0.06655 : ℝ) = d1 - d5 := by
  have hw : (ur3.forward_kinematics ![0, 0, 0, 0, 0, 0]).wrist_3 =
      ((((((1 : Mat4) *
        joint_transform ![0, 0, d1] ![0, 0, 0] 0 RotAxis.z) *
        joint_transform ![0, shoulder_offset, 0] ![0, π / 2, 0] 0 RotAxis.y) *
        joint_transform ![0, elbow_offset, upper_arm_length] ![0, 0, 0] 0 RotAxis.y) *
        joint_transform ![0, 0, forearm_length] ![0, π / 2, 0] 0 RotAxis.y) *
        joint_transform ![0, wrist_1_length, 0] ![0, 0, 0] 0 RotAxis.z) *
        joint_transform ![0, 0, wrist_2_length] ![0, 0, 0] 0 RotAxis.y := rfl
  refine ⟨?_, ?_, ?_, ?_⟩
  · rw [hw, homeA1, homeA2, homeA3, homeA4, homeA5, homeA6, one_mul,
      homeS2, homeS3, homeS4, homeS5, homeS6]
  · norm_num [upper_arm_length, forearm_length, a2, a3]
  · norm_num [d4]
  · norm_num [d1, d5]

end UR3
